import Mathlib

/-!
Shallow embedding of `src/src/fs/inode_translator.rs` (fuse-mt): a wrapper
around FUSE that presents paths instead of inodes.  Paths are modelled as
lists of components (the root `/` is the empty list, `PathBuf::join` with a
relative name is list append, `Path::parent` drops the last component and is
absent on the root).  Machine integers (`u64`, `u32`, `c_int`) are modelled
as `Nat`/`Int`; none of the translated code relies on overflow.  The fuse
reply channels (`ReplyAttr`, `ReplyEntry`, ...) are modelled as the value the
dispatcher hands them; `ReplyDirectory` is a bounded buffer whose `add`
refuses an entry once the buffer holds `cap` entries, reporting fullness, as
the transport's bounded reply buffer does.  The `.unwrap()` on
`path.parent()` in `readdir` is modelled by an `Option` result on the
dispatcher's `readdir`: `none` is the panic.
-/

namespace FuseMT

/-- Error codes are C `c_int` values (`libc::c_int`). -/
abbrev Errno := Int

/-- `libc::ENOSYS` ("function not implemented"). -/
def ENOSYS : Errno := 38

/-- `libc::EINVAL` ("invalid argument"). -/
def EINVAL : Errno := 22

/-- `libc::EIO` ("input/output error"). -/
def EIO : Errno := 5

/-- The fuse `Request` context; opaque to the translated code, which only
passes it through. -/
abbrev Request := Unit

/-- `time::Timespec`, opaque to the translated code (a ttl value). -/
abbrev Timespec := Int

/-- `fuse::FileType`, an opaque kind tag. -/
abbrev FileType := Nat

/-- A path, as its list of components below the root: `/` is `[]`,
`/a/b` is `["a", "b"]`. -/
abbrev Path := List String

/-- The root path `/`. -/
def rootPath : Path := []

/-- The literal name `.` as a path (`Path::new(".")`). -/
def dotName : Path := ["."]

/-- The literal name `..` as a path (`Path::new("..")`). -/
def dotdotName : Path := [".."]

/-- `Path::parent`: `None` on the root, otherwise the path without its last
component. -/
def Path.parent (p : Path) : Option Path :=
  if p = [] then none else some p.dropLast

/-- `fuse::FileAttr`: the `ino` field (rewritten by the dispatcher) plus the
remaining fields, opaque to the translated code and bundled as one value. -/
structure FileAttr where
  ino : Nat
  rest : Nat
deriving DecidableEq, Repr

/-- `DirectoryEntry` from the source: a name plus a kind tag. -/
structure DirectoryEntry where
  name : Path
  kind : FileType
deriving DecidableEq, Repr

/-- Modelled from the spec: the Path Table (`inode_table.rs` is not part of
the sources; §4.1 of the spec fixes its contract).  A bidirectional mapping
between handles and paths, kept as the list of paths in allocation order:
the path at list index `i` is bound to handle `i + 1`, so allocation is
monotonic starting from handle `1` and a path never receives two distinct
handles. -/
structure InodeTable where
  entries : List Path
deriving DecidableEq, Repr

/-- Modelled from the spec: a table with no entries; the root entry is added
by the translator's constructor. -/
def InodeTable.new : InodeTable := ⟨[]⟩

/-- Modelled from the spec: bind the next unused handle to `path` and return
it. -/
def InodeTable.add (t : InodeTable) (path : Path) : Nat × InodeTable :=
  (t.entries.length + 1, ⟨t.entries ++ [path]⟩)

/-- Modelled from the spec: `get_path(handle)` returns the path bound to the
handle, or `none` if the handle is unknown. -/
def InodeTable.get_path (t : InodeTable) (ino : Nat) : Option Path :=
  if ino = 0 then none else t.entries[ino - 1]?

/-- Modelled from the spec: `get_inode(path)` is the reverse lookup,
`none` if no live handle is bound to the path. -/
def InodeTable.get_inode (t : InodeTable) (path : Path) : Option Nat :=
  (t.entries.indexOf? path).map (· + 1)

/-- Modelled from the spec: `add_or_get(path)` returns the existing handle
of `path` if it has one, otherwise allocates the next unused handle for it. -/
def InodeTable.add_or_get (t : InodeTable) (path : Path) : Nat × InodeTable :=
  match t.get_inode path with
  | some ino => (ino, t)
  | none => t.add path

/-- The `PathFilesystem` trait: the path-based strategy's capability set.
Modelled as a record of pure functions (the strategy is an external
collaborator; its own mutable state is irrelevant to the dispatcher). -/
structure PathFilesystem where
  init : Request → Except Errno Unit
  destroy : Request → Unit
  getattr : Request → Path → Except Errno (Timespec × FileAttr)
  lookup : Request → Path → Path → Except Errno (Timespec × FileAttr × Nat)
  opendir : Request → Path → Nat → Except Errno (Nat × Nat)
  releasedir : Request → Path → Nat → Nat → Except Errno Unit
  readdir : Request → Path → Nat → Nat → Except Errno (List DirectoryEntry)
  «open» : Request → Path → Nat → Except Errno (Nat × Nat)
  release : Request → Path → Nat → Nat → Nat → Bool → Except Errno Unit
  read : Request → Path → Nat → Nat → Nat → Except Errno (List Nat)
  write : Request → Path → Nat → Nat → List Nat → Nat → Except Errno Nat
  flush : Request → Path → Nat → Nat → Except Errno Unit

/-- The trait's default method bodies: `init` is `Err(0)`, `destroy` does
nothing, every other operation is `Err(libc::ENOSYS)`. -/
def PathFilesystem.default : PathFilesystem where
  init := fun _ => Except.error 0
  destroy := fun _ => ()
  getattr := fun _ _ => Except.error ENOSYS
  lookup := fun _ _ _ => Except.error ENOSYS
  opendir := fun _ _ _ => Except.error ENOSYS
  releasedir := fun _ _ _ _ => Except.error ENOSYS
  readdir := fun _ _ _ _ => Except.error ENOSYS
  «open» := fun _ _ _ => Except.error ENOSYS
  release := fun _ _ _ _ _ _ => Except.error ENOSYS
  read := fun _ _ _ _ _ => Except.error ENOSYS
  write := fun _ _ _ _ _ _ => Except.error ENOSYS
  flush := fun _ _ _ _ => Except.error ENOSYS

/-- The value sent on a `ReplyAttr` channel. -/
inductive ReplyAttr where
  | attr (ttl : Timespec) (a : FileAttr)
  | error (e : Errno)
deriving DecidableEq, Repr

/-- The value sent on a `ReplyEntry` channel. -/
inductive ReplyEntry where
  | entry (ttl : Timespec) (a : FileAttr) (generation : Nat)
  | error (e : Errno)
deriving DecidableEq, Repr

/-- The value sent on a `ReplyOpen` channel. -/
inductive ReplyOpen where
  | opened (fh : Nat) (flags : Nat)
  | error (e : Errno)
deriving DecidableEq, Repr

/-- The value sent on a `ReplyEmpty` channel. -/
inductive ReplyEmpty where
  | ok
  | error (e : Errno)
deriving DecidableEq, Repr

/-- The value sent on a `ReplyData` channel. -/
inductive ReplyData where
  | data (d : List Nat)
  | error (e : Errno)
deriving DecidableEq, Repr

/-- The value sent on a `ReplyWrite` channel. -/
inductive ReplyWrite where
  | written (n : Nat)
  | error (e : Errno)
deriving DecidableEq, Repr

/-- One entry as pushed into the directory reply buffer by `reply.add`:
the handle, the position tag, the kind and the name. -/
structure DirEnt where
  ino : Nat
  offset : Nat
  kind : FileType
  name : Path
deriving DecidableEq, Repr

/-- The directory reply buffer: bounded (here by an entry count `cap`,
standing for the transport's byte bound), holding the accepted entries in
order. -/
structure DirBuffer where
  cap : Nat
  entries : List DirEnt
deriving DecidableEq, Repr

/-- `ReplyDirectory::add`: appends the entry and reports `false` if the
buffer still has room, otherwise refuses the entry and reports `true`
(buffer full). -/
def DirBuffer.add (b : DirBuffer) (e : DirEnt) : DirBuffer × Bool :=
  if b.entries.length < b.cap then (⟨b.cap, b.entries ++ [e]⟩, false)
  else (b, true)

/-- The value sent on a `ReplyDirectory` channel: `ok` carries the buffer
contents handed to the transport. -/
inductive ReplyDirectory where
  | ok (buf : DirBuffer)
  | error (e : Errno)
deriving DecidableEq, Repr

/-- `InodeTranslator<T>`: the strategy plus the inode table. -/
structure InodeTranslator where
  target : PathFilesystem
  inodes : InodeTable

/-- `InodeTranslator::new`: seeds the table with the root path `/`. -/
def InodeTranslator.new (target_fs : PathFilesystem) : InodeTranslator :=
  let translator : InodeTranslator := ⟨target_fs, InodeTable.new⟩
  { translator with inodes := (translator.inodes.add rootPath).2 }

/-- Dispatcher `init`: delegates to the strategy. -/
def InodeTranslator.init (s : InodeTranslator) (req : Request) :
    Except Errno Unit × InodeTranslator :=
  (s.target.init req, s)

/-- Dispatcher `destroy`: delegates to the strategy. -/
def InodeTranslator.destroy (s : InodeTranslator) (req : Request) :
    Unit × InodeTranslator :=
  (s.target.destroy req, s)

/-- Dispatcher `getattr` (lines 105-115). -/
def InodeTranslator.getattr (s : InodeTranslator) (req : Request) (ino : Nat) :
    ReplyAttr × InodeTranslator :=
  match s.inodes.get_path ino with
  | some path =>
    match s.target.getattr req path with
    | Except.ok (ttl, attr) => (ReplyAttr.attr ttl attr, s)
    | Except.error e => (ReplyAttr.error e, s)
  | none => (ReplyAttr.error EINVAL, s)

/-- Dispatcher `lookup` (lines 117-132). -/
def InodeTranslator.lookup (s : InodeTranslator) (req : Request)
    (parent : Nat) (name : Path) : ReplyEntry × InodeTranslator :=
  match s.inodes.get_path parent with
  | some parent_path =>
    let path := parent_path ++ name
    match s.target.lookup req parent_path name with
    | Except.ok (ttl, attr, generation) =>
      let r := s.inodes.add_or_get path
      (ReplyEntry.entry ttl { attr with ino := r.1 } generation,
       { s with inodes := r.2 })
    | Except.error e => (ReplyEntry.error e, s)
  | none => (ReplyEntry.error EINVAL, s)

/-- Dispatcher `opendir` (lines 134-144). -/
def InodeTranslator.opendir (s : InodeTranslator) (req : Request)
    (ino : Nat) (flags : Nat) : ReplyOpen × InodeTranslator :=
  match s.inodes.get_path ino with
  | some path =>
    match s.target.opendir req path flags with
    | Except.ok (fh, flags) => (ReplyOpen.opened fh flags, s)
    | Except.error e => (ReplyOpen.error e, s)
  | none => (ReplyOpen.error EINVAL, s)

/-- Dispatcher `releasedir` (lines 146-156). -/
def InodeTranslator.releasedir (s : InodeTranslator) (req : Request)
    (ino : Nat) (fh : Nat) (flags : Nat) : ReplyEmpty × InodeTranslator :=
  match s.inodes.get_path ino with
  | some path =>
    match s.target.releasedir req path fh flags with
    | Except.ok _ => (ReplyEmpty.ok, s)
    | Except.error e => (ReplyEmpty.error e, s)
  | none => (ReplyEmpty.error EINVAL, s)

/-- The entry loop of dispatcher `readdir` (lines 177-200): resolves each
entry's handle (`.` is the directory itself, `..` is the parent, anything
else is joined onto the directory's path and resolved via `add_or_get`),
pushes it into the reply buffer tagged with `index`, stops when the buffer
reports full (without incrementing `index`).  Returns the buffer, the final
value of `index` and the table. -/
def InodeTranslator.readdirLoop (dirIno parentIno : Nat) (dirPath : Path) :
    List DirectoryEntry → Nat → DirBuffer → InodeTable →
    DirBuffer × Nat × InodeTable
  | [], index, buf, t => (buf, index, t)
  | entry :: rest, index, buf, t =>
    let r :=
      if entry.name = dotName then (dirIno, t)
      else if entry.name = dotdotName then (parentIno, t)
      else t.add_or_get (dirPath ++ entry.name)
    let a := buf.add ⟨r.1, index, entry.kind, entry.name⟩
    if a.2 then (a.1, index, r.2)
    else readdirLoop dirIno parentIno dirPath rest (index + 1) a.1 r.2

/-- Dispatcher `readdir` (lines 158-209).  `none` models the panic of the
`.unwrap()` on `path.parent()` for a non-root handle bound to a parentless
path. -/
def InodeTranslator.readdir (s : InodeTranslator) (req : Request)
    (ino : Nat) (fh : Nat) (offset : Nat) (reply : DirBuffer) :
    Option (ReplyDirectory × InodeTranslator) :=
  match s.inodes.get_path ino with
  | some path =>
    match s.target.readdir req path fh offset with
    | Except.ok entries =>
      let parentLookup : Option (Option Nat) :=
        if ino = 1 then some (some ino)
        else
          match Path.parent path with
          | none => none
          | some parent_path => some (s.inodes.get_inode parent_path)
      match parentLookup with
      | none => none
      | some none => some (ReplyDirectory.error EIO, s)
      | some (some parent_inode) =>
        let r := InodeTranslator.readdirLoop ino parent_inode path
          entries 0 reply s.inodes
        some (ReplyDirectory.ok r.1, { s with inodes := r.2.2 })
    | Except.error e => some (ReplyDirectory.error e, s)
  | none => some (ReplyDirectory.error EINVAL, s)

/-- Dispatcher `open` (lines 211-221). -/
def InodeTranslator.«open» (s : InodeTranslator) (req : Request)
    (ino : Nat) (flags : Nat) : ReplyOpen × InodeTranslator :=
  match s.inodes.get_path ino with
  | some path =>
    match s.target.«open» req path flags with
    | Except.ok (fh, flags) => (ReplyOpen.opened fh flags, s)
    | Except.error e => (ReplyOpen.error e, s)
  | none => (ReplyOpen.error EINVAL, s)

/-- Dispatcher `release` (lines 223-233). -/
def InodeTranslator.release (s : InodeTranslator) (req : Request)
    (ino : Nat) (fh : Nat) (flags : Nat) (lock_owner : Nat) (flsh : Bool) :
    ReplyEmpty × InodeTranslator :=
  match s.inodes.get_path ino with
  | some path =>
    match s.target.release req path fh flags lock_owner flsh with
    | Except.ok _ => (ReplyEmpty.ok, s)
    | Except.error e => (ReplyEmpty.error e, s)
  | none => (ReplyEmpty.error EINVAL, s)

/-- Dispatcher `read` (lines 235-245). -/
def InodeTranslator.read (s : InodeTranslator) (req : Request)
    (ino : Nat) (fh : Nat) (offset : Nat) (size : Nat) :
    ReplyData × InodeTranslator :=
  match s.inodes.get_path ino with
  | some path =>
    match s.target.read req path fh offset size with
    | Except.ok d => (ReplyData.data d, s)
    | Except.error e => (ReplyData.error e, s)
  | none => (ReplyData.error EINVAL, s)

/-- Dispatcher `write` (lines 247-257). -/
def InodeTranslator.write (s : InodeTranslator) (req : Request)
    (ino : Nat) (fh : Nat) (offset : Nat) (data : List Nat) (flags : Nat) :
    ReplyWrite × InodeTranslator :=
  match s.inodes.get_path ino with
  | some path =>
    match s.target.write req path fh offset data flags with
    | Except.ok n => (ReplyWrite.written n, s)
    | Except.error e => (ReplyWrite.error e, s)
  | none => (ReplyWrite.error EINVAL, s)

/-- Dispatcher `flush` (lines 259-269). -/
def InodeTranslator.flush (s : InodeTranslator) (req : Request)
    (ino : Nat) (fh : Nat) (lock_owner : Nat) :
    ReplyEmpty × InodeTranslator :=
  match s.inodes.get_path ino with
  | some path =>
    match s.target.flush req path fh lock_owner with
    | Except.ok _ => (ReplyEmpty.ok, s)
    | Except.error e => (ReplyEmpty.error e, s)
  | none => (ReplyEmpty.error EINVAL, s)

/-- The unbounded emission sequence of the `readdir` entry loop: for each
strategy entry, the handle it resolves to (with the table threaded through
`add_or_get` for names other than `.` and `..`) and the position it is
tagged with, ignoring the buffer bound.  The loop below is characterized as
a `take`-prefix of this sequence. -/
def emitAll (dirIno parentIno : Nat) (dirPath : Path) :
    List DirectoryEntry → Nat → InodeTable → List DirEnt × InodeTable
  | [], _, t => ([], t)
  | entry :: rest, index, t =>
    let r :=
      if entry.name = dotName then (dirIno, t)
      else if entry.name = dotdotName then (parentIno, t)
      else t.add_or_get (dirPath ++ entry.name)
    let w := emitAll dirIno parentIno dirPath rest (index + 1) r.2
    (⟨r.1, index, entry.kind, entry.name⟩ :: w.1, w.2)

/-- The per-entry handle rule in the spec's words: the name `.` maps to the
directory's own handle, the name `..` maps to the parent's handle, and
every other name is joined onto the directory's path and resolved via
`add_or_get`, the table being threaded left to right. -/
def entryHandleSpec (dirIno parentIno : Nat) (dirPath : Path) :
    List DirectoryEntry → InodeTable → List (Path × Nat)
  | [], _ => []
  | entry :: rest, t =>
    if entry.name = dotName then
      (entry.name, dirIno) :: entryHandleSpec dirIno parentIno dirPath rest t
    else if entry.name = dotdotName then
      (entry.name, parentIno) :: entryHandleSpec dirIno parentIno dirPath rest t
    else
      (entry.name, (t.add_or_get (dirPath ++ entry.name)).1) ::
        entryHandleSpec dirIno parentIno dirPath rest
          (t.add_or_get (dirPath ++ entry.name)).2

/-- A strategy whose directory listing always succeeds with no entries;
used to exercise the dispatcher's readdir at concrete inputs. -/
def readdirEmptyFs : PathFilesystem :=
  { PathFilesystem.default with readdir := fun _ _ _ _ => Except.ok [] }

/-- A sample directory listing: `.`, `..`, and two ordinary names. -/
def sampleEntries : List DirectoryEntry :=
  [⟨dotName, 1⟩, ⟨dotdotName, 1⟩, ⟨["a"], 2⟩, ⟨["b"], 3⟩]

/-- A strategy whose directory listing always yields `sampleEntries`. -/
def readdirSampleFs : PathFilesystem :=
  { PathFilesystem.default with readdir := fun _ _ _ _ => Except.ok sampleEntries }

/-- One dispatcher invocation with its protocol-side arguments, used to
quantify over arbitrary operation sequences. -/
inductive Op where
  | init (req : Request)
  | destroy (req : Request)
  | getattr (req : Request) (ino : Nat)
  | lookup (req : Request) (parent : Nat) (name : Path)
  | opendir (req : Request) (ino : Nat) (flags : Nat)
  | releasedir (req : Request) (ino fh flags : Nat)
  | readdir (req : Request) (ino fh offset : Nat) (buf : DirBuffer)
  | «open» (req : Request) (ino flags : Nat)
  | release (req : Request) (ino fh flags lock_owner : Nat) (flsh : Bool)
  | read (req : Request) (ino fh offset size : Nat)
  | write (req : Request) (ino fh offset : Nat) (data : List Nat) (flags : Nat)
  | flush (req : Request) (ino fh lock_owner : Nat)

/-- The translator state after one dispatcher invocation.  A `readdir` that
panics (the modelled `.unwrap()`) aborts the session, so no further state
arises from it; it is mapped to the unchanged state, which is harmless for
invariants that are preserved by every non-panicking step. -/
def applyOp (s : InodeTranslator) : Op → InodeTranslator
  | Op.init req => (s.init req).2
  | Op.destroy req => (s.destroy req).2
  | Op.getattr req ino => (s.getattr req ino).2
  | Op.lookup req parent name => (s.lookup req parent name).2
  | Op.opendir req ino flags => (s.opendir req ino flags).2
  | Op.releasedir req ino fh flags => (s.releasedir req ino fh flags).2
  | Op.readdir req ino fh offset buf =>
    match s.readdir req ino fh offset buf with
    | some r => r.2
    | none => s
  | Op.«open» req ino flags => (s.«open» req ino flags).2
  | Op.release req ino fh flags lock_owner flsh =>
    (s.release req ino fh flags lock_owner flsh).2
  | Op.read req ino fh offset size => (s.read req ino fh offset size).2
  | Op.write req ino fh offset data flags =>
    (s.write req ino fh offset data flags).2
  | Op.flush req ino fh lock_owner => (s.flush req ino fh lock_owner).2

/-- The inode tables reachable from a freshly constructed translator by any
sequence of dispatcher operations, with any strategy. -/
inductive ReachableTable : InodeTable → Prop
  | base (fs : PathFilesystem) : ReachableTable (InodeTranslator.new fs).inodes
  | step (fs : PathFilesystem) (op : Op) (t : InodeTable)
      (h : ReachableTable t) : ReachableTable (applyOp ⟨fs, t⟩ op).inodes

/-- C1: for every handle-based dispatcher operation (getattr, lookup,
opendir, releasedir, readdir, open, release, read, write, flush) on a
handle with no entry in the inode table, the reply is the EINVAL error, the
table is unchanged, and no strategy method is invoked (the result is the
same for every strategy `fs`, as the right-hand sides do not depend on
`fs` beyond carrying it unchanged). -/
theorem unresolvable_handle_einval (fs : PathFilesystem) (t : InodeTable)
    (ino : Nat) (h : t.get_path ino = none)
    (req : Request) (name : Path) (fh flags offset size lock_owner : Nat)
    (flsh : Bool) (data : List Nat) (buf : DirBuffer) :
    InodeTranslator.getattr ⟨fs, t⟩ req ino = (ReplyAttr.error EINVAL, ⟨fs, t⟩) ∧
    InodeTranslator.lookup ⟨fs, t⟩ req ino name = (ReplyEntry.error EINVAL, ⟨fs, t⟩) ∧
    InodeTranslator.opendir ⟨fs, t⟩ req ino flags = (ReplyOpen.error EINVAL, ⟨fs, t⟩) ∧
    InodeTranslator.releasedir ⟨fs, t⟩ req ino fh flags = (ReplyEmpty.error EINVAL, ⟨fs, t⟩) ∧
    InodeTranslator.readdir ⟨fs, t⟩ req ino fh offset buf =
      some (ReplyDirectory.error EINVAL, ⟨fs, t⟩) ∧
    InodeTranslator.«open» ⟨fs, t⟩ req ino flags = (ReplyOpen.error EINVAL, ⟨fs, t⟩) ∧
    InodeTranslator.release ⟨fs, t⟩ req ino fh flags lock_owner flsh =
      (ReplyEmpty.error EINVAL, ⟨fs, t⟩) ∧
    InodeTranslator.read ⟨fs, t⟩ req ino fh offset size = (ReplyData.error EINVAL, ⟨fs, t⟩) ∧
    InodeTranslator.write ⟨fs, t⟩ req ino fh offset data flags =
      (ReplyWrite.error EINVAL, ⟨fs, t⟩) ∧
    InodeTranslator.flush ⟨fs, t⟩ req ino fh lock_owner = (ReplyEmpty.error EINVAL, ⟨fs, t⟩) := by
  refine ⟨?_, ?_, ?_, ?_, ?_, ?_, ?_, ?_, ?_, ?_⟩ <;>
    simp [InodeTranslator.getattr, InodeTranslator.lookup, InodeTranslator.opendir,
      InodeTranslator.releasedir, InodeTranslator.readdir, InodeTranslator.«open»,
      InodeTranslator.release, InodeTranslator.read, InodeTranslator.write,
      InodeTranslator.flush, h]

/-- Witness for C1: handle `999` on the freshly seeded table (root only). -/
theorem unresolvable_handle_einval_w :
    (InodeTable.mk [[]]).get_path 999 = none ∧
    InodeTranslator.getattr ⟨PathFilesystem.default, ⟨[[]]⟩⟩ () 999 =
      (ReplyAttr.error EINVAL, ⟨PathFilesystem.default, ⟨[[]]⟩⟩) :=
  ⟨by decide,
   (unresolvable_handle_einval PathFilesystem.default ⟨[[]]⟩ 999 (by decide)
     () [] 0 0 0 0 0 false [] ⟨0, []⟩).1⟩

/-- C3: a `lookup` on a resolvable parent whose strategy lookup succeeds
joins the parent path with the name, obtains a handle for the joined path
via `add_or_get`, writes that handle into the `ino` field of the returned
attributes, and replies with the strategy's ttl, attributes and generation
counter; the new table is the one produced by `add_or_get`. -/
theorem lookup_success_allocates (fs : PathFilesystem) (t : InodeTable)
    (req : Request) (parent : Nat) (name parent_path : Path)
    (ttl : Timespec) (attr : FileAttr) (generation : Nat)
    (hp : t.get_path parent = some parent_path)
    (hl : fs.lookup req parent_path name = Except.ok (ttl, attr, generation)) :
    InodeTranslator.lookup ⟨fs, t⟩ req parent name =
      (ReplyEntry.entry ttl
        { attr with ino := (t.add_or_get (parent_path ++ name)).1 } generation,
       ⟨fs, (t.add_or_get (parent_path ++ name)).2⟩) := by
  simp [InodeTranslator.lookup, hp, hl]

/-- Witness for C3: looking up `a` under the root allocates handle `2`. -/
theorem lookup_success_allocates_w :
    InodeTranslator.lookup
      ⟨{ PathFilesystem.default with lookup := fun _ _ _ => Except.ok (0, ⟨0, 5⟩, 7) },
        ⟨[[]]⟩⟩ () 1 ["a"] =
      (ReplyEntry.entry 0
        { FileAttr.mk 0 5 with ino := ((InodeTable.mk [[]]).add_or_get ["a"]).1 } 7,
       ⟨{ PathFilesystem.default with lookup := fun _ _ _ => Except.ok (0, ⟨0, 5⟩, 7) },
        ((InodeTable.mk [[]]).add_or_get ["a"]).2⟩) :=
  lookup_success_allocates _ ⟨[[]]⟩ () 1 ["a"] [] 0 ⟨0, 5⟩ 7 (by decide) rfl

/-- C4: a `lookup` on a resolvable parent whose strategy lookup fails with
`e` replies with exactly `e` and leaves the inode table unchanged (no
handle is allocated for the candidate child path). -/
theorem lookup_failure_no_alloc (fs : PathFilesystem) (t : InodeTable)
    (req : Request) (parent : Nat) (name parent_path : Path) (e : Errno)
    (hp : t.get_path parent = some parent_path)
    (hl : fs.lookup req parent_path name = Except.error e) :
    InodeTranslator.lookup ⟨fs, t⟩ req parent name = (ReplyEntry.error e, ⟨fs, t⟩) := by
  simp [InodeTranslator.lookup, hp, hl]

/-- Witness for C4: a strategy that rejects every lookup with error 13. -/
theorem lookup_failure_no_alloc_w :
    InodeTranslator.lookup
      ⟨{ PathFilesystem.default with lookup := fun _ _ _ => Except.error 13 },
        ⟨[[]]⟩⟩ () 1 ["a"] =
      (ReplyEntry.error 13,
       ⟨{ PathFilesystem.default with lookup := fun _ _ _ => Except.error 13 },
        ⟨[[]]⟩⟩) :=
  lookup_failure_no_alloc _ ⟨[[]]⟩ () 1 ["a"] [] 13 (by decide) rfl

/-- C7 counterexample: the trait's default `init` method yields `Err(0)`,
not the "not implemented" error ENOSYS, so not every operation of the
contract defaults to the unsupported error. -/
theorem default_init_not_enosys :
    ¬ PathFilesystem.default.init () = Except.error ENOSYS := by
  simp [PathFilesystem.default, ENOSYS]

/-- C7 amended: every operation of the path-based strategy contract other
than `init` and `destroy` (getattr, lookup, opendir, releasedir, readdir,
open, release, read, write, flush) has a default implementation returning
the ENOSYS ("not implemented") error; `init`'s default returns the error
code 0 and `destroy`'s default does nothing, so a strategy implementing
none of them still satisfies the contract. -/
theorem default_methods (req : Request) (p name : Path)
    (fh offset size flags lock_owner : Nat) (flsh : Bool) (data : List Nat) :
    PathFilesystem.default.init req = Except.error 0 ∧
    PathFilesystem.default.destroy req = () ∧
    PathFilesystem.default.getattr req p = Except.error ENOSYS ∧
    PathFilesystem.default.lookup req p name = Except.error ENOSYS ∧
    PathFilesystem.default.opendir req p flags = Except.error ENOSYS ∧
    PathFilesystem.default.releasedir req p fh flags = Except.error ENOSYS ∧
    PathFilesystem.default.readdir req p fh offset = Except.error ENOSYS ∧
    PathFilesystem.default.«open» req p flags = Except.error ENOSYS ∧
    PathFilesystem.default.release req p fh flags lock_owner flsh = Except.error ENOSYS ∧
    PathFilesystem.default.read req p fh offset size = Except.error ENOSYS ∧
    PathFilesystem.default.write req p fh offset data flags = Except.error ENOSYS ∧
    PathFilesystem.default.flush req p fh lock_owner = Except.error ENOSYS :=
  ⟨rfl, rfl, rfl, rfl, rfl, rfl, rfl, rfl, rfl, rfl, rfl, rfl⟩

/-- `add_or_get` preserves every existing handle binding. -/
theorem get_path_add_or_get (t : InodeTable) (q : Path) (i : Nat) (p : Path)
    (h : t.get_path i = some p) : ((t.add_or_get q).2).get_path i = some p := by
  cases hq : t.get_inode q with
  | some ino => simpa [InodeTable.add_or_get, hq] using h
  | none =>
    have hi : i ≠ 0 := by
      intro hz
      simp [InodeTable.get_path, hz] at h
    have h' : t.entries[i - 1]? = some p := by
      simpa [InodeTable.get_path, hi] using h
    have hlt : i - 1 < t.entries.length := by
      by_contra hge
      rw [List.getElem?_eq_none_iff.mpr (Nat.le_of_not_lt hge)] at h'
      exact Option.noConfusion h'
    simp [InodeTable.add_or_get, hq, InodeTable.add, InodeTable.get_path, hi,
      List.getElem?_append_left hlt, h']

/-- The table threaded through the emission sequence preserves every
existing handle binding. -/
theorem get_path_emitAll (dirIno parentIno : Nat) (dirPath : Path)
    (entries : List DirectoryEntry) (index : Nat) (t : InodeTable)
    (i : Nat) (p : Path) (h : t.get_path i = some p) :
    ((emitAll dirIno parentIno dirPath entries index t).2).get_path i = some p := by
  induction entries generalizing index t with
  | nil => simpa [emitAll] using h
  | cons entry rest ih =>
    by_cases h1 : entry.name = dotName
    · simpa [emitAll, h1] using ih (index + 1) t h
    · by_cases h2 : entry.name = dotdotName
      · simpa [emitAll, h1, h2] using ih (index + 1) t h
      · simpa [emitAll, h1, h2] using
          ih (index + 1) _ (get_path_add_or_get t (dirPath ++ entry.name) i p h)

/-- Closed form of the readdir entry loop: the buffer receives the first
`cap - |buf|` emitted entries, the index advances by the number of entries
accepted, and the table is the one after resolving the accepted entries
plus, when the buffer filled up, the one refused entry. -/
theorem readdirLoop_eq (dirIno parentIno : Nat) (dirPath : Path)
    (entries : List DirectoryEntry) (index : Nat) (buf : DirBuffer)
    (t : InodeTable) :
    InodeTranslator.readdirLoop dirIno parentIno dirPath entries index buf t =
      (⟨buf.cap, buf.entries ++
          (emitAll dirIno parentIno dirPath entries index t).1.take
            (buf.cap - buf.entries.length)⟩,
       index + min entries.length (buf.cap - buf.entries.length),
       (emitAll dirIno parentIno dirPath
          (entries.take (min entries.length (buf.cap - buf.entries.length + 1)))
          index t).2) := by
  induction entries generalizing index buf t with
  | nil => simp [InodeTranslator.readdirLoop, emitAll]
  | cons entry rest ih =>
    by_cases hlt : buf.entries.length < buf.cap
    · obtain ⟨k, hk⟩ : ∃ k, buf.cap - buf.entries.length = k + 1 :=
        ⟨buf.cap - buf.entries.length - 1, by omega⟩
      have hmin : min (entry :: rest).length (buf.cap - buf.entries.length + 1) =
          min rest.length (k + 1) + 1 := by
        simp only [List.length_cons]
        omega
      rw [hmin, List.take_succ_cons]
      simp only [InodeTranslator.readdirLoop, emitAll, DirBuffer.add]
      rw [if_pos hlt]
      simp only [Bool.false_eq_true, if_false]
      rw [ih]
      simp only [Prod.mk.injEq, DirBuffer.mk.injEq, List.length_append,
        List.length_cons, List.length_nil, Nat.zero_add]
      refine ⟨⟨trivial, ?_⟩, ?_, ?_⟩
      · have hk2 : buf.cap - (buf.entries.length + 1) = k := by omega
        rw [hk2, hk, List.take_succ_cons, List.append_assoc, List.singleton_append]
      · omega
      · have hk3 : buf.cap - (buf.entries.length + 1) + 1 = k + 1 := by omega
        rw [hk3]
    · have h0 : buf.cap - buf.entries.length = 0 := by omega
      have hmin : min (entry :: rest).length (buf.cap - buf.entries.length + 1) = 1 := by
        simp only [List.length_cons]
        omega
      rw [hmin]
      simp [InodeTranslator.readdirLoop, emitAll, DirBuffer.add, hlt, h0]

/-- The literal names `..` and `.` differ. -/
theorem dotdot_ne_dot : dotdotName ≠ dotName := by decide

/-- Names and handles of the emission sequence follow the spec's per-entry
handle rule. -/
theorem emitAll_map_name_ino (dirIno parentIno : Nat) (dirPath : Path)
    (entries : List DirectoryEntry) (index : Nat) (t : InodeTable) :
    (emitAll dirIno parentIno dirPath entries index t).1.map
        (fun d => (d.name, d.ino)) =
      entryHandleSpec dirIno parentIno dirPath entries t := by
  induction entries generalizing index t with
  | nil => simp [emitAll, entryHandleSpec]
  | cons entry rest ih =>
    by_cases h1 : entry.name = dotName
    · simp [emitAll, entryHandleSpec, h1, ih]
    · by_cases h2 : entry.name = dotdotName
      · simp [emitAll, entryHandleSpec, h1, h2, ih, dotdot_ne_dot]
      · simp [emitAll, entryHandleSpec, h1, h2, ih]

/-- The emission sequence keeps the strategy's names in order. -/
theorem emitAll_map_name (dirIno parentIno : Nat) (dirPath : Path)
    (entries : List DirectoryEntry) (index : Nat) (t : InodeTable) :
    (emitAll dirIno parentIno dirPath entries index t).1.map DirEnt.name =
      entries.map DirectoryEntry.name := by
  induction entries generalizing index t with
  | nil => simp [emitAll]
  | cons entry rest ih => simp [emitAll, ih]

/-- The emission sequence tags consecutive positions starting at `index`. -/
theorem emitAll_map_offset (dirIno parentIno : Nat) (dirPath : Path)
    (entries : List DirectoryEntry) (index : Nat) (t : InodeTable) :
    (emitAll dirIno parentIno dirPath entries index t).1.map DirEnt.offset =
      List.range' index entries.length := by
  induction entries generalizing index t with
  | nil => simp [emitAll]
  | cons entry rest ih => simp [emitAll, ih, List.range'_succ]

/-- The emission sequence has one element per strategy entry. -/
theorem emitAll_length (dirIno parentIno : Nat) (dirPath : Path)
    (entries : List DirectoryEntry) (index : Nat) (t : InodeTable) :
    (emitAll dirIno parentIno dirPath entries index t).1.length =
      entries.length := by
  induction entries generalizing index t with
  | nil => simp [emitAll]
  | cons entry rest ih => simp [emitAll, ih]

/-- The spec-side handle list has one element per strategy entry. -/
theorem entryHandleSpec_length (dirIno parentIno : Nat) (dirPath : Path)
    (entries : List DirectoryEntry) (t : InodeTable) :
    (entryHandleSpec dirIno parentIno dirPath entries t).length =
      entries.length := by
  rw [← emitAll_map_name_ino dirIno parentIno dirPath entries 0 t]
  simp [emitAll_length]

/-- Closed form of a successful `readdir` dispatch: reply `ok` with the
truncated emission sequence appended to the buffer, and the table advanced
over the resolved entries. -/
theorem readdir_ok_eq (fs : PathFilesystem) (t : InodeTable) (req : Request)
    (ino fh offset : Nat) (buf : DirBuffer) (path : Path)
    (entries : List DirectoryEntry) (parent_inode : Nat)
    (hp : t.get_path ino = some path)
    (hr : fs.readdir req path fh offset = Except.ok entries)
    (hpar : (ino = 1 ∧ parent_inode = 1) ∨
      (ino ≠ 1 ∧ ∃ pp, Path.parent path = some pp ∧
        t.get_inode pp = some parent_inode)) :
    InodeTranslator.readdir ⟨fs, t⟩ req ino fh offset buf =
      some (ReplyDirectory.ok
        ⟨buf.cap, buf.entries ++
          (emitAll ino parent_inode path entries 0 t).1.take
            (buf.cap - buf.entries.length)⟩,
       ⟨fs, (emitAll ino parent_inode path
          (entries.take (min entries.length (buf.cap - buf.entries.length + 1)))
          0 t).2⟩) := by
  rcases hpar with ⟨h1, hpi⟩ | ⟨h1, pp, hpp, hpi⟩
  · subst h1
    subst hpi
    simp [InodeTranslator.readdir, hp, hr, readdirLoop_eq]
  · simp [InodeTranslator.readdir, hp, hr, h1, hpp, hpi, readdirLoop_eq]

/-- C5: a `readdir` on a resolvable non-root directory handle whose
strategy listing succeeds but whose parent path resolves to no handle
replies with the EIO error and emits no directory entries: the error reply
carries no entries and the translator state is unchanged, so the
wrong-handle outcome never occurs silently. -/
theorem readdir_broken_parent_eio (fs : PathFilesystem) (t : InodeTable)
    (req : Request) (ino fh offset : Nat) (buf : DirBuffer) (path pp : Path)
    (entries : List DirectoryEntry)
    (hp : t.get_path ino = some path) (h1 : ino ≠ 1)
    (hr : fs.readdir req path fh offset = Except.ok entries)
    (hpp : Path.parent path = some pp)
    (hpi : t.get_inode pp = none) :
    InodeTranslator.readdir ⟨fs, t⟩ req ino fh offset buf =
      some (ReplyDirectory.error EIO, ⟨fs, t⟩) := by
  simp [InodeTranslator.readdir, hp, hr, h1, hpp, hpi]

/-- Witness for C5: handle 2 is bound to `/a/c` but `/a` has no handle. -/
theorem readdir_broken_parent_eio_w :
    InodeTranslator.readdir ⟨readdirEmptyFs, ⟨[["b"], ["a", "c"]]⟩⟩ () 2 0 0 ⟨5, []⟩ =
      some (ReplyDirectory.error EIO, ⟨readdirEmptyFs, ⟨[["b"], ["a", "c"]]⟩⟩) :=
  readdir_broken_parent_eio readdirEmptyFs ⟨[["b"], ["a", "c"]]⟩ () 2 0 0 ⟨5, []⟩
    ["a", "c"] ["a"] [] (by decide) (by decide) rfl (by decide) (by decide)

/-- C10: in `readdir` on a resolvable non-root handle with a successful
strategy listing, the parent handle is resolved up-front, before iterating
any entry: if the resolved path has no parent component, the unconditional
unwrap panics (modelled as the `none` result), so the call is total only
under the invariant that every non-root path stored in the table has a
parent; and a `get_inode` failure for the parent aborts the whole call with
EIO even when the strategy's entry list contains no `..` entry at all. -/
theorem readdir_parent_resolved_upfront (fs : PathFilesystem) (t : InodeTable)
    (req : Request) (ino fh offset : Nat) (buf : DirBuffer) (path : Path)
    (entries : List DirectoryEntry)
    (hp : t.get_path ino = some path) (h1 : ino ≠ 1)
    (hr : fs.readdir req path fh offset = Except.ok entries) :
    (Path.parent path = none →
      InodeTranslator.readdir ⟨fs, t⟩ req ino fh offset buf = none) ∧
    (∀ pp, Path.parent path = some pp → t.get_inode pp = none →
      (∀ e ∈ entries, e.name ≠ dotdotName) →
      InodeTranslator.readdir ⟨fs, t⟩ req ino fh offset buf =
        some (ReplyDirectory.error EIO, ⟨fs, t⟩)) := by
  constructor
  · intro hnone
    simp [InodeTranslator.readdir, hp, hr, h1, hnone]
  · intro pp hpp hpi _
    simp [InodeTranslator.readdir, hp, hr, h1, hpp, hpi]

/-- Witness for C10: handle 2 bound to the parentless root path, and the
listing contains no `..` entry. -/
theorem readdir_parent_resolved_upfront_w :
    (Path.parent [] = none →
      InodeTranslator.readdir ⟨readdirEmptyFs, ⟨[["b"], []]⟩⟩ () 2 0 0 ⟨5, []⟩ = none) ∧
    (∀ pp, Path.parent [] = some pp →
      (InodeTable.mk [["b"], []]).get_inode pp = none →
      (∀ e ∈ ([] : List DirectoryEntry), e.name ≠ dotdotName) →
      InodeTranslator.readdir ⟨readdirEmptyFs, ⟨[["b"], []]⟩⟩ () 2 0 0 ⟨5, []⟩ =
        some (ReplyDirectory.error EIO, ⟨readdirEmptyFs, ⟨[["b"], []]⟩⟩)) :=
  readdir_parent_resolved_upfront readdirEmptyFs ⟨[["b"], []]⟩ () 2 0 0 ⟨5, []⟩
    [] [] (by decide) (by decide) rfl

/-- C2: on a `readdir` over a resolvable directory handle whose strategy
listing succeeds, each emitted entry's protocol-visible handle follows the
spec's rule `entryHandleSpec`: the name `.` maps to the directory's own
handle `ino`, the name `..` maps to the parent's handle obtained via
`get_inode` on the parent path — except that the root (handle 1) is its own
parent — and every other name is joined onto the directory's path and
resolved via `add_or_get`. -/
theorem readdir_entry_handles (fs : PathFilesystem) (t : InodeTable)
    (req : Request) (ino fh offset : Nat) (buf : DirBuffer) (path : Path)
    (entries : List DirectoryEntry) (parent_inode : Nat)
    (hp : t.get_path ino = some path)
    (hr : fs.readdir req path fh offset = Except.ok entries)
    (hpar : (ino = 1 ∧ parent_inode = 1) ∨
      (ino ≠ 1 ∧ ∃ pp, Path.parent path = some pp ∧
        t.get_inode pp = some parent_inode))
    (hbuf : buf.entries = []) :
    ∃ res s', InodeTranslator.readdir ⟨fs, t⟩ req ino fh offset buf =
        some (ReplyDirectory.ok res, s') ∧
      res.entries.map (fun d => (d.name, d.ino)) =
        (entryHandleSpec ino parent_inode path entries t).take
          res.entries.length := by
  refine ⟨_, _,
    readdir_ok_eq fs t req ino fh offset buf path entries parent_inode hp hr hpar, ?_⟩
  simp only [hbuf, List.nil_append, List.length_nil, Nat.sub_zero]
  rw [List.map_take, emitAll_map_name_ino, List.length_take, emitAll_length]
  apply List.take_eq_take.mpr
  rw [entryHandleSpec_length]
  omega

/-- Witness for C2: listing the root with `.`, `..`, `a`, `b`. -/
theorem readdir_entry_handles_w :
    ∃ res s', InodeTranslator.readdir ⟨readdirSampleFs, ⟨[[]]⟩⟩ () 1 0 0 ⟨10, []⟩ =
        some (ReplyDirectory.ok res, s') ∧
      res.entries.map (fun d => (d.name, d.ino)) =
        (entryHandleSpec 1 1 [] sampleEntries ⟨[[]]⟩).take res.entries.length :=
  readdir_entry_handles readdirSampleFs ⟨[[]]⟩ () 1 0 0 ⟨10, []⟩ []
    sampleEntries 1 (by decide) rfl (Or.inl ⟨rfl, rfl⟩) rfl

/-- C6: on a successful `readdir` listing, entries are appended to the
reply buffer in exactly the order the strategy yielded them, each tagged
with a strictly increasing position starting at 0; when appending signals a
full buffer, iteration stops at that entry without raising an error — the
reply is still `ok` — and the loop's index counter is left at the number of
accepted entries, which is exactly the position passed to the add call at
which iteration stopped. -/
theorem readdir_buffer_order (fs : PathFilesystem) (t : InodeTable)
    (req : Request) (ino fh offset : Nat) (buf : DirBuffer) (path : Path)
    (entries : List DirectoryEntry) (parent_inode : Nat)
    (hp : t.get_path ino = some path)
    (hr : fs.readdir req path fh offset = Except.ok entries)
    (hpar : (ino = 1 ∧ parent_inode = 1) ∨
      (ino ≠ 1 ∧ ∃ pp, Path.parent path = some pp ∧
        t.get_inode pp = some parent_inode))
    (hbuf : buf.entries = []) :
    ∃ res s', InodeTranslator.readdir ⟨fs, t⟩ req ino fh offset buf =
        some (ReplyDirectory.ok res, s') ∧
      res.entries.map DirEnt.name =
        (entries.map DirectoryEntry.name).take res.entries.length ∧
      res.entries.map DirEnt.offset = List.range res.entries.length ∧
      res.entries.length = min buf.cap entries.length ∧
      (InodeTranslator.readdirLoop ino parent_inode path entries 0 buf t).2.1 =
        min buf.cap entries.length := by
  refine ⟨_, _,
    readdir_ok_eq fs t req ino fh offset buf path entries parent_inode hp hr hpar,
    ?_, ?_, ?_, ?_⟩
  · simp only [hbuf, List.nil_append, List.length_nil, Nat.sub_zero]
    rw [List.map_take, emitAll_map_name, List.length_take, emitAll_length]
    apply List.take_eq_take.mpr
    rw [List.length_map]
    omega
  · simp only [hbuf, List.nil_append, List.length_nil, Nat.sub_zero]
    rw [List.map_take, emitAll_map_offset, ← List.range_eq_range',
      List.take_range, List.length_take, emitAll_length]
  · simp only [hbuf, List.nil_append, List.length_nil, Nat.sub_zero]
    rw [List.length_take, emitAll_length]
  · rw [readdirLoop_eq]
    simp only [hbuf, List.length_nil, Nat.sub_zero, Nat.zero_add]
    omega

/-- Witness for C6: listing four entries into a buffer of capacity 2 —
only the first two are accepted, the reply is still `ok`, the counter ends
at 2. -/
theorem readdir_buffer_order_w :
    ∃ res s', InodeTranslator.readdir ⟨readdirSampleFs, ⟨[[]]⟩⟩ () 1 0 0 ⟨2, []⟩ =
        some (ReplyDirectory.ok res, s') ∧
      res.entries.map DirEnt.name =
        (sampleEntries.map DirectoryEntry.name).take res.entries.length ∧
      res.entries.map DirEnt.offset = List.range res.entries.length ∧
      res.entries.length = min 2 sampleEntries.length ∧
      (InodeTranslator.readdirLoop 1 1 [] sampleEntries 0 ⟨2, []⟩ ⟨[[]]⟩).2.1 =
        min 2 sampleEntries.length :=
  readdir_buffer_order readdirSampleFs ⟨[[]]⟩ () 1 0 0 ⟨2, []⟩ []
    sampleEntries 1 (by decide) rfl (Or.inl ⟨rfl, rfl⟩) rfl

/-- `getattr` never changes the translator state. -/
theorem getattr_state (fs : PathFilesystem) (t : InodeTable) (req : Request)
    (ino : Nat) : (InodeTranslator.getattr ⟨fs, t⟩ req ino).2 = ⟨fs, t⟩ := by
  unfold InodeTranslator.getattr
  split
  · split <;> rfl
  · rfl

/-- `opendir` never changes the translator state. -/
theorem opendir_state (fs : PathFilesystem) (t : InodeTable) (req : Request)
    (ino flags : Nat) :
    (InodeTranslator.opendir ⟨fs, t⟩ req ino flags).2 = ⟨fs, t⟩ := by
  unfold InodeTranslator.opendir
  split
  · split <;> rfl
  · rfl

/-- `releasedir` never changes the translator state. -/
theorem releasedir_state (fs : PathFilesystem) (t : InodeTable) (req : Request)
    (ino fh flags : Nat) :
    (InodeTranslator.releasedir ⟨fs, t⟩ req ino fh flags).2 = ⟨fs, t⟩ := by
  unfold InodeTranslator.releasedir
  split
  · split <;> rfl
  · rfl

/-- `open` never changes the translator state. -/
theorem open_state (fs : PathFilesystem) (t : InodeTable) (req : Request)
    (ino flags : Nat) :
    (InodeTranslator.«open» ⟨fs, t⟩ req ino flags).2 = ⟨fs, t⟩ := by
  unfold InodeTranslator.«open»
  split
  · split <;> rfl
  · rfl

/-- `release` never changes the translator state. -/
theorem release_state (fs : PathFilesystem) (t : InodeTable) (req : Request)
    (ino fh flags lock_owner : Nat) (flsh : Bool) :
    (InodeTranslator.release ⟨fs, t⟩ req ino fh flags lock_owner flsh).2 =
      ⟨fs, t⟩ := by
  unfold InodeTranslator.release
  split
  · split <;> rfl
  · rfl

/-- `read` never changes the translator state. -/
theorem read_state (fs : PathFilesystem) (t : InodeTable) (req : Request)
    (ino fh offset size : Nat) :
    (InodeTranslator.read ⟨fs, t⟩ req ino fh offset size).2 = ⟨fs, t⟩ := by
  unfold InodeTranslator.read
  split
  · split <;> rfl
  · rfl

/-- `write` never changes the translator state. -/
theorem write_state (fs : PathFilesystem) (t : InodeTable) (req : Request)
    (ino fh offset : Nat) (data : List Nat) (flags : Nat) :
    (InodeTranslator.write ⟨fs, t⟩ req ino fh offset data flags).2 = ⟨fs, t⟩ := by
  unfold InodeTranslator.write
  split
  · split <;> rfl
  · rfl

/-- `flush` never changes the translator state. -/
theorem flush_state (fs : PathFilesystem) (t : InodeTable) (req : Request)
    (ino fh lock_owner : Nat) :
    (InodeTranslator.flush ⟨fs, t⟩ req ino fh lock_owner).2 = ⟨fs, t⟩ := by
  unfold InodeTranslator.flush
  split
  · split <;> rfl
  · rfl

/-- `lookup` either leaves the table unchanged or, exactly when the parent
resolves and the strategy lookup succeeds, advances it by one `add_or_get`
on the joined child path. -/
theorem lookup_state (fs : PathFilesystem) (t : InodeTable) (req : Request)
    (parent : Nat) (name : Path) :
    (InodeTranslator.lookup ⟨fs, t⟩ req parent name).2.inodes = t ∨
    ∃ pp ttl attr generation, t.get_path parent = some pp ∧
      fs.lookup req pp name = Except.ok (ttl, attr, generation) ∧
      (InodeTranslator.lookup ⟨fs, t⟩ req parent name).2.inodes =
        (t.add_or_get (pp ++ name)).2 := by
  cases hgp : t.get_path parent with
  | none =>
    refine Or.inl ?_
    simp [InodeTranslator.lookup, hgp]
  | some pp =>
    cases hl : fs.lookup req pp name with
    | ok v =>
      obtain ⟨ttl, attr, generation⟩ := v
      refine Or.inr ⟨pp, ttl, attr, generation, rfl, hl, ?_⟩
      simp [InodeTranslator.lookup, hgp, hl]
    | error e =>
      refine Or.inl ?_
      simp [InodeTranslator.lookup, hgp, hl]

/-- A non-panicking `readdir` either leaves the table unchanged or, exactly
when the handle resolves and the strategy listing succeeds, advances it by
the emission of a prefix of the listing. -/
theorem readdir_state (fs : PathFilesystem) (t : InodeTable) (req : Request)
    (ino fh offset : Nat) (buf : DirBuffer) :
    InodeTranslator.readdir ⟨fs, t⟩ req ino fh offset buf = none ∨
    ∃ rep s', InodeTranslator.readdir ⟨fs, t⟩ req ino fh offset buf =
        some (rep, s') ∧
      (s'.inodes = t ∨
       ∃ path parent_inode entries k, t.get_path ino = some path ∧
         fs.readdir req path fh offset = Except.ok entries ∧
         s'.inodes = (emitAll ino parent_inode path (entries.take k) 0 t).2) := by
  cases hgp : t.get_path ino with
  | none =>
    have heq : InodeTranslator.readdir ⟨fs, t⟩ req ino fh offset buf =
        some (ReplyDirectory.error EINVAL, ⟨fs, t⟩) := by
      simp [InodeTranslator.readdir, hgp]
    exact Or.inr ⟨_, _, heq, Or.inl rfl⟩
  | some path =>
    cases hrd : fs.readdir req path fh offset with
    | error e =>
      have heq : InodeTranslator.readdir ⟨fs, t⟩ req ino fh offset buf =
          some (ReplyDirectory.error e, ⟨fs, t⟩) := by
        simp [InodeTranslator.readdir, hgp, hrd]
      exact Or.inr ⟨_, _, heq, Or.inl rfl⟩
    | ok entries =>
      by_cases h1 : ino = 1
      · subst h1
        exact Or.inr ⟨_, _,
          readdir_ok_eq fs t req 1 fh offset buf path entries 1 hgp hrd
            (Or.inl ⟨rfl, rfl⟩),
          Or.inr ⟨path, 1, entries,
            min entries.length (buf.cap - buf.entries.length + 1),
            rfl, hrd, rfl⟩⟩
      · cases hpp : Path.parent path with
        | none =>
          refine Or.inl ?_
          simp [InodeTranslator.readdir, hgp, hrd, h1, hpp]
        | some pp =>
          cases hpi : t.get_inode pp with
          | none =>
            have heq : InodeTranslator.readdir ⟨fs, t⟩ req ino fh offset buf =
                some (ReplyDirectory.error EIO, ⟨fs, t⟩) := by
              simp [InodeTranslator.readdir, hgp, hrd, h1, hpp, hpi]
            exact Or.inr ⟨_, _, heq, Or.inl rfl⟩
          | some parent_inode =>
            exact Or.inr ⟨_, _,
              readdir_ok_eq fs t req ino fh offset buf path entries parent_inode
                hgp hrd (Or.inr ⟨h1, pp, hpp, hpi⟩),
              Or.inr ⟨path, parent_inode, entries,
                min entries.length (buf.cap - buf.entries.length + 1),
                rfl, hrd, rfl⟩⟩

/-- C9: the inode table is mutated only by `lookup` (on strategy success,
one `add_or_get` for the joined child path) and by `readdir` (the emission
over an accepted prefix of the listing, whose only table effect is
`add_or_get` for entries named neither `.` nor `..`); every other
dispatcher operation — init, destroy, getattr, opendir, releasedir, open,
release, read, write, flush — and every error path leaves the inode table
exactly unchanged. -/
theorem table_mutation_frame (fs : PathFilesystem) (t : InodeTable)
    (req : Request) (ino parent fh offset size flags lock_owner : Nat)
    (name : Path) (flsh : Bool) (data : List Nat) (buf : DirBuffer) :
    (InodeTranslator.init ⟨fs, t⟩ req).2 = ⟨fs, t⟩ ∧
    (InodeTranslator.destroy ⟨fs, t⟩ req).2 = ⟨fs, t⟩ ∧
    (InodeTranslator.getattr ⟨fs, t⟩ req ino).2 = ⟨fs, t⟩ ∧
    (InodeTranslator.opendir ⟨fs, t⟩ req ino flags).2 = ⟨fs, t⟩ ∧
    (InodeTranslator.releasedir ⟨fs, t⟩ req ino fh flags).2 = ⟨fs, t⟩ ∧
    (InodeTranslator.«open» ⟨fs, t⟩ req ino flags).2 = ⟨fs, t⟩ ∧
    (InodeTranslator.release ⟨fs, t⟩ req ino fh flags lock_owner flsh).2 = ⟨fs, t⟩ ∧
    (InodeTranslator.read ⟨fs, t⟩ req ino fh offset size).2 = ⟨fs, t⟩ ∧
    (InodeTranslator.write ⟨fs, t⟩ req ino fh offset data flags).2 = ⟨fs, t⟩ ∧
    (InodeTranslator.flush ⟨fs, t⟩ req ino fh lock_owner).2 = ⟨fs, t⟩ ∧
    ((InodeTranslator.lookup ⟨fs, t⟩ req parent name).2.inodes = t ∨
      ∃ pp ttl attr generation, t.get_path parent = some pp ∧
        fs.lookup req pp name = Except.ok (ttl, attr, generation) ∧
        (InodeTranslator.lookup ⟨fs, t⟩ req parent name).2.inodes =
          (t.add_or_get (pp ++ name)).2) ∧
    (InodeTranslator.readdir ⟨fs, t⟩ req ino fh offset buf = none ∨
      ∃ rep s', InodeTranslator.readdir ⟨fs, t⟩ req ino fh offset buf =
          some (rep, s') ∧
        (s'.inodes = t ∨
         ∃ path parent_inode entries k, t.get_path ino = some path ∧
           fs.readdir req path fh offset = Except.ok entries ∧
           s'.inodes = (emitAll ino parent_inode path (entries.take k) 0 t).2)) :=
  ⟨rfl, rfl, getattr_state fs t req ino, opendir_state fs t req ino flags,
   releasedir_state fs t req ino fh flags, open_state fs t req ino flags,
   release_state fs t req ino fh flags lock_owner flsh,
   read_state fs t req ino fh offset size,
   write_state fs t req ino fh offset data flags,
   flush_state fs t req ino fh lock_owner,
   lookup_state fs t req parent name,
   readdir_state fs t req ino fh offset buf⟩

/-- C8 (root handle stability): from construction — which seeds the table
with the root path — and after any sequence of dispatcher operations with
any strategies, `get_path 1` yields the root path; no operation rebinds
handle 1. -/
theorem root_handle_stable (t : InodeTable) (h : ReachableTable t) :
    t.get_path 1 = some rootPath := by
  induction h with
  | base fs => rfl
  | step fs op t' ht ih =>
    cases op with
    | init req => exact ih
    | destroy req => exact ih
    | getattr req ino => simpa [applyOp, getattr_state] using ih
    | opendir req ino flags => simpa [applyOp, opendir_state] using ih
    | releasedir req ino fh flags => simpa [applyOp, releasedir_state] using ih
    | «open» req ino flags => simpa [applyOp, open_state] using ih
    | release req ino fh flags lock_owner flsh =>
      simpa [applyOp, release_state] using ih
    | read req ino fh offset size => simpa [applyOp, read_state] using ih
    | write req ino fh offset data flags => simpa [applyOp, write_state] using ih
    | flush req ino fh lock_owner => simpa [applyOp, flush_state] using ih
    | lookup req parent name =>
      rcases lookup_state fs t' req parent name with hc | ⟨pp, ttl, attr, generation, hgp, hl, hc⟩
      · simpa [applyOp, hc] using ih
      · rw [show (applyOp ⟨fs, t'⟩ (Op.lookup req parent name)).inodes =
            (InodeTranslator.lookup ⟨fs, t'⟩ req parent name).2.inodes from rfl, hc]
        exact get_path_add_or_get t' (pp ++ name) 1 rootPath ih
    | readdir req ino fh offset buf =>
      rcases readdir_state fs t' req ino fh offset buf with hnone | ⟨rep, s', heq, hdisj⟩
      · simpa [applyOp, hnone] using ih
      · have happ : (applyOp ⟨fs, t'⟩ (Op.readdir req ino fh offset buf)).inodes =
            s'.inodes := by
          simp [applyOp, heq]
        rw [happ]
        rcases hdisj with hc | ⟨path, parent_inode, entries, k, hgp, hrd, hc⟩
        · rw [hc]; exact ih
        · rw [hc]
          exact get_path_emitAll ino parent_inode path (entries.take k) 0 t' 1
            rootPath ih

/-- Witness for C8: after constructing the translator and performing a
`getattr` step, handle 1 still resolves to the root path. -/
theorem root_handle_stable_w :
    (applyOp ⟨PathFilesystem.default,
        (InodeTranslator.new PathFilesystem.default).inodes⟩
      (Op.getattr () 1)).inodes.get_path 1 = some rootPath :=
  root_handle_stable _
    (ReachableTable.step PathFilesystem.default (Op.getattr () 1) _
      (ReachableTable.base PathFilesystem.default))

end FuseMT
